import Mathlib

/-!
Shallow embedding of the BFI-2-J questionnaire core (`src/app.tsx`):
the fixed domain/facet catalog, raw-item normalization, the reverse-keyed
scoring engine, and the answering-flow state machine, together with proofs
of the specified properties.
-/

namespace BFI

/-- A domain or facet definition: stable internal id plus display label
(`domainDefinitions` / `facetDefinitions` entries in the source). -/
structure CategoryDef where
  id : String
  label : String
deriving DecidableEq, Repr

/-- The five fixed personality domains, in definition order. -/
def domainDefinitions : List CategoryDef :=
  [⟨"extraversion", "外向性"⟩,
   ⟨"agreeableness", "協調性"⟩,
   ⟨"conscientiousness", "勤勉性"⟩,
   ⟨"negativeEmotionality", "否定的情動性"⟩,
   ⟨"openness", "開放性"⟩]

/-- The fifteen fixed facets, in definition order. -/
def facetDefinitions : List CategoryDef :=
  [⟨"sociability", "社交性"⟩,
   ⟨"assertiveness", "自己主張性"⟩,
   ⟨"energyLevel", "活力"⟩,
   ⟨"compassion", "思いやり"⟩,
   ⟨"respectfulness", "敬意"⟩,
   ⟨"trust", "信用"⟩,
   ⟨"organization", "秩序"⟩,
   ⟨"productivity", "生産性"⟩,
   ⟨"responsibility", "責任感"⟩,
   ⟨"anxiety", "不安"⟩,
   ⟨"depression", "抑うつ"⟩,
   ⟨"emotionalVolatility", "情緒不安定性"⟩,
   ⟨"intellectualCuriosity", "知的好奇心"⟩,
   ⟨"aestheticSensitivity", "美的感性"⟩,
   ⟨"creativeImagination", "創造的想像力"⟩]

/-- `buildIdByLabelMap`: builds the label-to-id lookup by inserting each
definition in order (a later entry with the same label overwrites an
earlier one, as JS object assignment does); a missing label maps to
`none` (JS `undefined`). -/
def buildIdByLabelMap (definitions : List CategoryDef) : String → Option String :=
  definitions.foldl
    (fun map definition =>
      fun l => if l = definition.label then some definition.id else map l)
    (fun _ => none)

/-- `domainIdByLabel` lookup map. -/
def domainIdByLabel : String → Option String :=
  buildIdByLabelMap domainDefinitions

/-- `facetIdByLabel` lookup map. -/
def facetIdByLabel : String → Option String :=
  buildIdByLabelMap facetDefinitions

/-- A raw catalog record as read from the items JSON file. -/
structure RawItem where
  number : Nat
  text : String
  domain : String
  facet : String
  reverse : Bool
deriving DecidableEq, Repr

/-- A normalized item: domain/facet labels resolved to internal ids. -/
structure Item where
  number : Nat
  text : String
  domainId : String
  facetId : String
  reverse : Bool
deriving DecidableEq, Repr

/-- `normalizeItems`: resolves each raw item's labels via the lookup maps,
throwing (modelled as `Except.error`) on the first label that resolves to
nothing, and otherwise returning the normalized list in input order. -/
def normalizeItems : List RawItem → Except String (List Item)
  | [] => Except.ok []
  | rawItem :: rest =>
    match domainIdByLabel rawItem.domain with
    | none => Except.error ("Unknown domain label: " ++ rawItem.domain)
    | some domainId =>
      match facetIdByLabel rawItem.facet with
      | none => Except.error ("Unknown facet label: " ++ rawItem.facet)
      | some facetId =>
        match normalizeItems rest with
        | Except.error e => Except.error e
        | Except.ok normalized =>
          Except.ok (⟨rawItem.number, rawItem.text, domainId, facetId, rawItem.reverse⟩
            :: normalized)

/-- `REVERSE_BASE`. -/
def REVERSE_BASE : Nat := 6

/-- `reverseScore`: the reverse-keyed transform `REVERSE_BASE - value`. -/
def reverseScore (value : Nat) : Nat :=
  REVERSE_BASE - value

/-- `calculateAverage`: `count === 0 ? 0 : sum / count`. -/
def calculateAverage (sum : ℚ) (count : Nat) : ℚ :=
  if count = 0 then 0 else sum / count

/-- The per-category item counts computed by `createItemStats`. -/
structure ItemStats where
  domainCounts : String → Nat
  facetCounts : String → Nat

/-- The accumulation loop of `createItemStats`, one item at a time. -/
def itemStatsLoop : List Item → ItemStats → ItemStats
  | [], stats => stats
  | item :: rest, stats =>
    itemStatsLoop rest
      { domainCounts := fun d =>
          if d = item.domainId then stats.domainCounts d + 1 else stats.domainCounts d,
        facetCounts := fun f =>
          if f = item.facetId then stats.facetCounts f + 1 else stats.facetCounts f }

/-- `createItemStats`: item counts per domain and per facet, starting from
zero maps. -/
def createItemStats (items : List Item) : ItemStats :=
  itemStatsLoop items ⟨fun _ => 0, fun _ => 0⟩

/-- The running sums of `createInitialTotals` / the scoring loop. -/
structure Totals where
  domains : String → ℚ
  facets : String → ℚ

/-- `createInitialTotals`: zero maps for every category. -/
def createInitialTotals : Totals :=
  ⟨fun _ => 0, fun _ => 0⟩

/-- The response map `Partial<Record<number, Rating>>`, modelled as an
association list from item number to rating; lookup finds the first
matching key (keys stay unique under `setResponse`). -/
def getResponse : List (Nat × Nat) → Nat → Option Nat
  | [], _ => none
  | (k, v) :: rest, n => if k = n then some v else getResponse rest n

/-- The JS spread `{ ...prev, [n]: rating }`: replaces the value at an
existing key in place, otherwise appends the new key at the end. -/
def setResponse (resp : List (Nat × Nat)) (n r : Nat) : List (Nat × Nat) :=
  if (resp.map Prod.fst).contains n then
    resp.map (fun p => if p.1 = n then (n, r) else p)
  else
    resp ++ [(n, r)]

/-- The JS truthiness test `!!responses[n]`: a rating is recorded and
nonzero (the `Rating` type never holds 0, but `!selected` would also
treat 0 as missing). -/
def hasTruthyRating (resp : List (Nat × Nat)) (n : Nat) : Bool :=
  match getResponse resp n with
  | none => false
  | some r => r != 0

/-- The per-item effective score `item.reverse ? reverseScore(selected) :
selected`. -/
def effectiveScore (item : Item) (selected : Nat) : Nat :=
  if item.reverse then reverseScore selected else selected

/-- The scoring accumulation loop of the `result` memo: skips falsy
(absent or zero) responses, otherwise adds the effective score to the
item's domain and facet running sums. -/
def accumulateTotals (resp : List (Nat × Nat)) : List Item → Totals → Totals
  | [], totals => totals
  | item :: rest, totals =>
    match getResponse resp item.number with
    | none => accumulateTotals resp rest totals
    | some selected =>
      if selected = 0 then accumulateTotals resp rest totals
      else
        accumulateTotals resp rest
          { domains := fun d =>
              if d = item.domainId then
                totals.domains d + (effectiveScore item selected : ℚ)
              else totals.domains d,
            facets := fun f =>
              if f = item.facetId then
                totals.facets f + (effectiveScore item selected : ℚ)
              else totals.facets f }

/-- One output row of the score summary. -/
structure ScoreEntry where
  id : String
  label : String
  value : ℚ
deriving DecidableEq, Repr

/-- `ScoreSummary`: domain rows then facet rows. -/
structure ScoreSummary where
  domains : List ScoreEntry
  facets : List ScoreEntry
deriving DecidableEq, Repr

/-- The body of the `result` memo after the `allAnswered` guard:
accumulate totals over the catalog, then emit one averaged entry per
domain and per facet in definition order. -/
def computeScoreSummary (items : List Item) (resp : List (Nat × Nat)) : ScoreSummary :=
  let totals := accumulateTotals resp items createInitialTotals
  let stats := createItemStats items
  { domains := domainDefinitions.map (fun definition =>
      ⟨definition.id, definition.label,
        calculateAverage (totals.domains definition.id)
          (stats.domainCounts definition.id)⟩),
    facets := facetDefinitions.map (fun definition =>
      ⟨definition.id, definition.label,
        calculateAverage (totals.facets definition.id)
          (stats.facetCounts definition.id)⟩) }

/-- `allAnswered`: the number of recorded response keys equals the number
of catalog items. -/
def allAnswered (items : List Item) (resp : List (Nat × Nat)) : Bool :=
  resp.length == items.length

/-- The `result` memo: `null` until `allAnswered`, then the computed
summary. -/
def scoreResult (items : List Item) (resp : List (Nat × Nat)) : Option ScoreSummary :=
  if allAnswered items resp then some (computeScoreSummary items resp) else none

/-- The three UI stages. -/
inductive Stage where
  | intro
  | question
  | result
deriving DecidableEq, Repr

/-- The component state: `stage`, `currentIndex`, `responses`. -/
structure AppState where
  stage : Stage
  currentIndex : Nat
  responses : List (Nat × Nat)
deriving DecidableEq, Repr

/-- `useState` initial values: intro stage, index 0, empty responses. -/
def initialState : AppState :=
  ⟨Stage.intro, 0, []⟩

/-- `handleStart`: switch the stage to `question`. -/
def handleStart (s : AppState) : AppState :=
  { s with stage := Stage.question }

/-- `handleSelect`: a no-op when there is no current item, otherwise
record (or overwrite) the rating for the current item's number. -/
def handleSelect (items : List Item) (rating : Nat) (s : AppState) : AppState :=
  match items[s.currentIndex]? with
  | none => s
  | some currentItem =>
    { s with responses := setResponse s.responses currentItem.number rating }

/-- `handleNext`: a no-op without a current item or without a truthy
recorded rating for it; otherwise advance to the next index, switching to
`result` when the next index reaches `totalItems`. -/
def handleNext (items : List Item) (s : AppState) : AppState :=
  match items[s.currentIndex]? with
  | none => s
  | some currentItem =>
    if hasTruthyRating s.responses currentItem.number then
      if items.length ≤ s.currentIndex + 1 then { s with stage := Stage.result }
      else { s with currentIndex := s.currentIndex + 1 }
    else s

/-- `handlePrevious`: a no-op at index 0, otherwise decrement the index
(the source's second `nextIndex < 0` guard is unreachable once
`currentIndex ≠ 0`). -/
def handlePrevious (s : AppState) : AppState :=
  if s.currentIndex = 0 then s
  else { s with currentIndex := s.currentIndex - 1 }

/-- `handleRestart`: back to intro, index 0, empty responses. -/
def handleRestart (_s : AppState) : AppState :=
  ⟨Stage.intro, 0, []⟩

/-- The user actions the rendering layer can invoke. -/
inductive Action where
  | start
  | select (rating : Nat)
  | next
  | previous
  | restart
deriving DecidableEq, Repr

/-- Dispatch one action to its handler. -/
def applyAction (items : List Item) (a : Action) (s : AppState) : AppState :=
  match a with
  | Action.start => handleStart s
  | Action.select rating => handleSelect items rating s
  | Action.next => handleNext items s
  | Action.previous => handlePrevious s
  | Action.restart => handleRestart s

/-- Apply a sequence of actions in order. -/
def applyActions (items : List Item) : List Action → AppState → AppState
  | [], s => s
  | a :: rest, s => applyActions items rest (applyAction items a s)

/-- The typing constraint of the TS `Rating` type: `select` only ever
carries a value in 1..5. -/
def actionWellTyped (a : Action) : Prop :=
  match a with
  | Action.select r => 1 ≤ r ∧ r ≤ 5
  | _ => True

/-- States reachable from the initial state by well-typed actions. -/
inductive Reachable (items : List Item) : AppState → Prop
  | init : Reachable items initialState
  | step (a : Action) (s : AppState) :
      Reachable items s → actionWellTyped a → Reachable items (applyAction items a s)

/-- A response set is complete for a catalog when every item's number has
a recorded rating in 1..5. -/
def CompleteResponses (items : List Item) (resp : List (Nat × Nat)) : Prop :=
  ∀ item ∈ items, ∃ r, getResponse resp item.number = some r ∧ 1 ≤ r ∧ r ≤ 5

/-- What one item contributes to its category sums: nothing when its
response is absent or zero, its effective score otherwise. -/
def recordedEffectiveScore (resp : List (Nat × Nat)) (item : Item) : ℚ :=
  match getResponse resp item.number with
  | none => 0
  | some selected => if selected = 0 then 0 else (effectiveScore item selected : ℚ)

/-- Modelled from the spec: the effective score of an item under a
response set — the rating, or `6 - rating` for a reverse-keyed item
(0 when no rating is recorded). -/
def specEffectiveScore (resp : List (Nat × Nat)) (item : Item) : ℚ :=
  match getResponse resp item.number with
  | none => 0
  | some r => if item.reverse then (6 : ℚ) - r else r

/-- Modelled from the spec: the arithmetic mean of the effective scores
of a list of items. -/
def categoryMean (catItems : List Item) (resp : List (Nat × Nat)) : ℚ :=
  ((catItems.map (specEffectiveScore resp)).sum) / (catItems.length : ℚ)

/-- Sum of effective scores over the items of a category (selected by
`p`) that actually have a truthy recorded rating. -/
def answeredEffectiveSum (p : Item → Bool) (items : List Item)
    (resp : List (Nat × Nat)) : ℚ :=
  ((items.filter (fun item => p item && hasTruthyRating resp item.number)).map
    (fun item => (effectiveScore item ((getResponse resp item.number).getD 0) : ℚ))).sum

/-- The answering-flow invariant: every item strictly before the current
index has a truthy recorded rating, and in the result stage every catalog
item does. -/
def StateInv (items : List Item) (s : AppState) : Prop :=
  (∀ j, j < s.currentIndex → ∀ item : Item, items[j]? = some item →
    hasTruthyRating s.responses item.number = true) ∧
  (s.stage = Stage.result → ∀ item ∈ items,
    hasTruthyRating s.responses item.number = true)

section ResponseLemmas

theorem getResponse_replace (n r m : Nat) (resp : List (Nat × Nat)) :
    getResponse (resp.map (fun p => if p.1 = n then (n, r) else p)) m =
      if n = m then (getResponse resp n).map (fun _ => r) else getResponse resp m := by
  induction resp with
  | nil => by_cases hm : n = m <;> simp [getResponse, hm]
  | cons head rest ih =>
    obtain ⟨k, v⟩ := head
    by_cases hk : k = n
    · subst hk
      rw [List.map_cons,
        show (if (k, v).1 = k then (k, r) else (k, v)) = (k, r) from if_pos rfl]
      by_cases hm : k = m
      · subst hm
        simp [getResponse]
      · simp [getResponse, hm, ih]
    · rw [List.map_cons,
        show (if (k, v).1 = n then (n, r) else (k, v)) = (k, v) from if_neg hk]
      by_cases hm : k = m
      · subst hm
        have hnm : ¬ n = k := fun h => hk h.symm
        simp [getResponse, hnm]
      · simp [getResponse, hk, hm, ih]

theorem getResponse_append_some (resp l : List (Nat × Nat)) (m v : Nat)
    (h : getResponse resp m = some v) :
    getResponse (resp ++ l) m = some v := by
  induction resp with
  | nil => simp [getResponse] at h
  | cons head rest ih =>
    obtain ⟨k, w⟩ := head
    by_cases hk : k = m
    · subst hk
      simp [getResponse] at h ⊢
      exact h
    · simp [getResponse, hk] at h ⊢
      exact ih h

theorem getResponse_append_none (resp l : List (Nat × Nat)) (m : Nat)
    (h : getResponse resp m = none) :
    getResponse (resp ++ l) m = getResponse l m := by
  induction resp with
  | nil => simp
  | cons head rest ih =>
    obtain ⟨k, w⟩ := head
    by_cases hk : k = m
    · subst hk
      simp [getResponse] at h
    · simp [getResponse, hk] at h ⊢
      exact ih h

theorem contains_iff_getResponse (n : Nat) (resp : List (Nat × Nat)) :
    (resp.map Prod.fst).contains n = true ↔ (getResponse resp n).isSome = true := by
  induction resp with
  | nil => simp [getResponse]
  | cons head rest ih =>
    obtain ⟨k, v⟩ := head
    by_cases hk : k = n
    · subst hk
      simp [getResponse]
    · have hbeq : (n == k) = false := beq_eq_false_iff_ne.mpr (fun h => hk h.symm)
      rw [List.map_cons, List.contains_cons, hbeq, Bool.false_or,
        show getResponse ((k, v) :: rest) n = getResponse rest n from by simp [getResponse, hk]]
      exact ih

theorem getResponse_setResponse (resp : List (Nat × Nat)) (n r m : Nat) :
    getResponse (setResponse resp n r) m =
      if n = m then some r else getResponse resp m := by
  unfold setResponse
  by_cases hc : (resp.map Prod.fst).contains n = true
  · rw [if_pos hc, getResponse_replace]
    obtain ⟨v, hv⟩ := Option.isSome_iff_exists.mp ((contains_iff_getResponse n resp).mp hc)
    by_cases hm : n = m
    · subst hm
      simp [hv]
    · simp [hm]
  · rw [if_neg hc]
    have hnone : getResponse resp n = none := by
      cases h : getResponse resp n with
      | none => rfl
      | some v =>
        exact absurd ((contains_iff_getResponse n resp).mpr (by simp [h])) hc
    by_cases hm : n = m
    · subst hm
      rw [getResponse_append_none resp _ n hnone]
      simp [getResponse]
    · cases h : getResponse resp m with
      | none =>
        rw [getResponse_append_none resp _ m h]
        simp [getResponse, hm]
      | some v =>
        rw [getResponse_append_some resp _ m v h]
        simp [hm]

theorem hasTruthyRating_setResponse (resp : List (Nat × Nat)) (n r m : Nat)
    (hr : 1 ≤ r) (h : hasTruthyRating resp m = true) :
    hasTruthyRating (setResponse resp n r) m = true := by
  unfold hasTruthyRating at h ⊢
  rw [getResponse_setResponse]
  by_cases hm : n = m
  · simp only [hm, if_true]
    have : r ≠ 0 := by omega
    simpa using this
  · simpa [hm] using h

end ResponseLemmas

section ScoringLemmas

theorem hasTruthyRating_iff (resp : List (Nat × Nat)) (n : Nat) :
    hasTruthyRating resp n = true ↔ ∃ r, getResponse resp n = some r ∧ r ≠ 0 := by
  unfold hasTruthyRating
  cases h : getResponse resp n with
  | none => simp
  | some r => simp [bne_iff_ne]

theorem itemStatsLoop_domainCounts (d : String) (items : List Item) (stats : ItemStats) :
    (itemStatsLoop items stats).domainCounts d =
      stats.domainCounts d + (items.filter (fun item => item.domainId == d)).length := by
  induction items generalizing stats with
  | nil => simp [itemStatsLoop]
  | cons item rest ih =>
    rw [itemStatsLoop, ih, List.filter_cons]
    by_cases hd : item.domainId = d
    · simp [hd]
      omega
    · have hd' : ¬ d = item.domainId := fun h => hd h.symm
      simp [hd, hd']

theorem itemStatsLoop_facetCounts (f : String) (items : List Item) (stats : ItemStats) :
    (itemStatsLoop items stats).facetCounts f =
      stats.facetCounts f + (items.filter (fun item => item.facetId == f)).length := by
  induction items generalizing stats with
  | nil => simp [itemStatsLoop]
  | cons item rest ih =>
    rw [itemStatsLoop, ih, List.filter_cons]
    by_cases hf : item.facetId = f
    · simp [hf]
      omega
    · have hf' : ¬ f = item.facetId := fun h => hf h.symm
      simp [hf, hf']

theorem createItemStats_domainCounts (items : List Item) (d : String) :
    (createItemStats items).domainCounts d =
      (items.filter (fun item => item.domainId == d)).length := by
  rw [createItemStats, itemStatsLoop_domainCounts]
  simp

theorem createItemStats_facetCounts (items : List Item) (f : String) :
    (createItemStats items).facetCounts f =
      (items.filter (fun item => item.facetId == f)).length := by
  rw [createItemStats, itemStatsLoop_facetCounts]
  simp

theorem accumulateTotals_cons_none (resp : List (Nat × Nat)) (item : Item)
    (rest : List Item) (totals : Totals)
    (h : getResponse resp item.number = none) :
    accumulateTotals resp (item :: rest) totals = accumulateTotals resp rest totals := by
  rw [accumulateTotals, h]

theorem accumulateTotals_cons_zero (resp : List (Nat × Nat)) (item : Item)
    (rest : List Item) (totals : Totals)
    (h : getResponse resp item.number = some 0) :
    accumulateTotals resp (item :: rest) totals = accumulateTotals resp rest totals := by
  rw [accumulateTotals, h]
  exact if_pos rfl

theorem accumulateTotals_cons_pos (resp : List (Nat × Nat)) (item : Item)
    (rest : List Item) (totals : Totals) (selected : Nat)
    (h : getResponse resp item.number = some selected) (h0 : selected ≠ 0) :
    accumulateTotals resp (item :: rest) totals =
      accumulateTotals resp rest
        { domains := fun d =>
            if d = item.domainId then
              totals.domains d + (effectiveScore item selected : ℚ)
            else totals.domains d,
          facets := fun f =>
            if f = item.facetId then
              totals.facets f + (effectiveScore item selected : ℚ)
            else totals.facets f } := by
  rw [accumulateTotals, h]
  exact if_neg h0

theorem recordedEffectiveScore_of_none (resp : List (Nat × Nat)) (item : Item)
    (h : getResponse resp item.number = none) :
    recordedEffectiveScore resp item = 0 := by
  unfold recordedEffectiveScore
  rw [h]

theorem recordedEffectiveScore_of_zero (resp : List (Nat × Nat)) (item : Item)
    (h : getResponse resp item.number = some 0) :
    recordedEffectiveScore resp item = 0 := by
  unfold recordedEffectiveScore
  rw [h]
  exact if_pos rfl

theorem recordedEffectiveScore_of_pos (resp : List (Nat × Nat)) (item : Item)
    (selected : Nat) (h : getResponse resp item.number = some selected)
    (h0 : selected ≠ 0) :
    recordedEffectiveScore resp item = (effectiveScore item selected : ℚ) := by
  unfold recordedEffectiveScore
  rw [h]
  exact if_neg h0

theorem accumulateTotals_domains (resp : List (Nat × Nat)) (d : String)
    (items : List Item) (totals : Totals) :
    (accumulateTotals resp items totals).domains d =
      totals.domains d +
        ((items.filter (fun item => item.domainId == d)).map
          (recordedEffectiveScore resp)).sum := by
  induction items generalizing totals with
  | nil => simp [accumulateTotals]
  | cons item rest ih =>
    cases hsel : getResponse resp item.number with
    | none =>
      rw [accumulateTotals_cons_none resp item rest totals hsel, ih, List.filter_cons]
      by_cases hd : item.domainId = d
      · simp [hd, recordedEffectiveScore_of_none resp item hsel]
      · simp [hd]
    | some selected =>
      by_cases h0 : selected = 0
      · subst h0
        rw [accumulateTotals_cons_zero resp item rest totals hsel, ih, List.filter_cons]
        by_cases hd : item.domainId = d
        · simp [hd, recordedEffectiveScore_of_zero resp item hsel]
        · simp [hd]
      · rw [accumulateTotals_cons_pos resp item rest totals selected hsel h0, ih,
          List.filter_cons]
        by_cases hd : item.domainId = d
        · rw [hd]
          simp [recordedEffectiveScore_of_pos resp item selected hsel h0]
          ring
        · have hd' : ¬ d = item.domainId := fun h => hd h.symm
          simp [hd, hd']

theorem accumulateTotals_facets (resp : List (Nat × Nat)) (f : String)
    (items : List Item) (totals : Totals) :
    (accumulateTotals resp items totals).facets f =
      totals.facets f +
        ((items.filter (fun item => item.facetId == f)).map
          (recordedEffectiveScore resp)).sum := by
  induction items generalizing totals with
  | nil => simp [accumulateTotals]
  | cons item rest ih =>
    cases hsel : getResponse resp item.number with
    | none =>
      rw [accumulateTotals_cons_none resp item rest totals hsel, ih, List.filter_cons]
      by_cases hf : item.facetId = f
      · simp [hf, recordedEffectiveScore_of_none resp item hsel]
      · simp [hf]
    | some selected =>
      by_cases h0 : selected = 0
      · subst h0
        rw [accumulateTotals_cons_zero resp item rest totals hsel, ih, List.filter_cons]
        by_cases hf : item.facetId = f
        · simp [hf, recordedEffectiveScore_of_zero resp item hsel]
        · simp [hf]
      · rw [accumulateTotals_cons_pos resp item rest totals selected hsel h0, ih,
          List.filter_cons]
        by_cases hf : item.facetId = f
        · rw [hf]
          simp [recordedEffectiveScore_of_pos resp item selected hsel h0]
          ring
        · have hf' : ¬ f = item.facetId := fun h => hf h.symm
          simp [hf, hf']

theorem computeScoreSummary_domains_eq (items : List Item) (resp : List (Nat × Nat)) :
    (computeScoreSummary items resp).domains =
      domainDefinitions.map (fun definition =>
        ⟨definition.id, definition.label,
          calculateAverage
            (((items.filter (fun item => item.domainId == definition.id)).map
              (recordedEffectiveScore resp)).sum)
            ((items.filter (fun item => item.domainId == definition.id)).length)⟩) := by
  unfold computeScoreSummary
  refine List.map_congr_left (fun definition _ => ?_)
  rw [accumulateTotals_domains, createItemStats_domainCounts]
  simp [createInitialTotals]

theorem computeScoreSummary_facets_eq (items : List Item) (resp : List (Nat × Nat)) :
    (computeScoreSummary items resp).facets =
      facetDefinitions.map (fun definition =>
        ⟨definition.id, definition.label,
          calculateAverage
            (((items.filter (fun item => item.facetId == definition.id)).map
              (recordedEffectiveScore resp)).sum)
            ((items.filter (fun item => item.facetId == definition.id)).length)⟩) := by
  unfold computeScoreSummary
  refine List.map_congr_left (fun definition _ => ?_)
  rw [accumulateTotals_facets, createItemStats_facetCounts]
  simp [createInitialTotals]

theorem recordedEffectiveScore_of_truthy (resp : List (Nat × Nat)) (item : Item)
    (h : hasTruthyRating resp item.number = true) :
    recordedEffectiveScore resp item =
      (effectiveScore item ((getResponse resp item.number).getD 0) : ℚ) := by
  obtain ⟨r, hr, hr0⟩ := (hasTruthyRating_iff resp item.number).mp h
  rw [recordedEffectiveScore_of_pos resp item r hr hr0, hr]
  rfl

theorem recordedEffectiveScore_of_falsy (resp : List (Nat × Nat)) (item : Item)
    (h : hasTruthyRating resp item.number = false) :
    recordedEffectiveScore resp item = 0 := by
  unfold hasTruthyRating at h
  cases hr : getResponse resp item.number with
  | none => exact recordedEffectiveScore_of_none resp item hr
  | some r =>
    rw [hr] at h
    have : r = 0 := by simpa using h
    subst this
    exact recordedEffectiveScore_of_zero resp item hr

theorem recordedSum_eq_answeredSum (p : Item → Bool) (items : List Item)
    (resp : List (Nat × Nat)) :
    ((items.filter p).map (recordedEffectiveScore resp)).sum =
      answeredEffectiveSum p items resp := by
  unfold answeredEffectiveSum
  induction items with
  | nil => simp
  | cons item rest ih =>
    rw [List.filter_cons, List.filter_cons]
    cases hp : p item with
    | false => simpa [hp] using ih
    | true =>
      cases htr : hasTruthyRating resp item.number with
      | false =>
        simpa [hp, htr, recordedEffectiveScore_of_falsy resp item htr] using ih
      | true =>
        simpa [hp, htr, recordedEffectiveScore_of_truthy resp item htr] using ih

theorem filter_and_length_le (p q : Item → Bool) (items : List Item) :
    (items.filter (fun item => p item && q item)).length ≤
      (items.filter p).length := by
  induction items with
  | nil => simp
  | cons item rest ih =>
    rw [List.filter_cons, List.filter_cons]
    cases hp : p item with
    | false => simpa [hp] using ih
    | true =>
      cases hq : q item with
      | false =>
        simp [hp, hq]
        omega
      | true =>
        simp [hp, hq]
        omega

theorem answeredEffectiveSum_nonneg (p : Item → Bool) (items : List Item)
    (resp : List (Nat × Nat)) :
    0 ≤ answeredEffectiveSum p items resp := by
  unfold answeredEffectiveSum
  refine List.sum_nonneg ?_
  intro x hx
  obtain ⟨item, _, rfl⟩ := List.mem_map.mp hx
  positivity

end ScoringLemmas

section MeanLemmas

theorem specEffectiveScore_of_some (resp : List (Nat × Nat)) (item : Item) (r : Nat)
    (h : getResponse resp item.number = some r) :
    specEffectiveScore resp item = if item.reverse then (6 : ℚ) - r else r := by
  unfold specEffectiveScore
  rw [h]

theorem recordedEffectiveScore_eq_spec (items : List Item) (resp : List (Nat × Nat))
    (hc : CompleteResponses items resp) (item : Item) (hmem : item ∈ items) :
    recordedEffectiveScore resp item = specEffectiveScore resp item := by
  obtain ⟨r, hr, h1, h5⟩ := hc item hmem
  have h0 : r ≠ 0 := by omega
  rw [recordedEffectiveScore_of_pos resp item r hr h0,
    specEffectiveScore_of_some resp item r hr]
  unfold effectiveScore
  by_cases hrev : item.reverse
  · rw [if_pos hrev, if_pos hrev]
    unfold reverseScore REVERSE_BASE
    have hle : r ≤ 6 := by omega
    push_cast [hle]
    ring
  · rw [if_neg hrev, if_neg hrev]

theorem specEffectiveScore_bounds (items : List Item) (resp : List (Nat × Nat))
    (hc : CompleteResponses items resp) (item : Item) (hmem : item ∈ items) :
    1 ≤ specEffectiveScore resp item ∧ specEffectiveScore resp item ≤ 5 := by
  obtain ⟨r, hr, h1, h5⟩ := hc item hmem
  rw [specEffectiveScore_of_some resp item r hr]
  have h1q : (1 : ℚ) ≤ r := by exact_mod_cast h1
  have h5q : (r : ℚ) ≤ 5 := by exact_mod_cast h5
  by_cases hrev : item.reverse
  · rw [if_pos hrev]
    constructor <;> linarith
  · rw [if_neg hrev]
    constructor <;> linarith

theorem sum_bounds_of_mem (l : List ℚ) (h : ∀ x ∈ l, 1 ≤ x ∧ x ≤ 5) :
    (l.length : ℚ) ≤ l.sum ∧ l.sum ≤ 5 * l.length := by
  induction l with
  | nil => simp
  | cons x rest ih =>
    obtain ⟨hx1, hx5⟩ := h x (List.mem_cons_self x rest)
    obtain ⟨ha, hb⟩ := ih (fun y hy => h y (List.mem_cons_of_mem x hy))
    constructor
    · simp only [List.length_cons, List.sum_cons]
      push_cast
      linarith
    · simp only [List.length_cons, List.sum_cons]
      push_cast
      linarith

theorem calculateAverage_filter_spec (items : List Item) (resp : List (Nat × Nat))
    (hc : CompleteResponses items resp) (p : Item → Bool) :
    calculateAverage (((items.filter p).map (recordedEffectiveScore resp)).sum)
        ((items.filter p).length) =
      categoryMean (items.filter p) resp ∧
    ((items.filter p).length ≠ 0 →
      1 ≤ calculateAverage (((items.filter p).map (recordedEffectiveScore resp)).sum)
            ((items.filter p).length) ∧
      calculateAverage (((items.filter p).map (recordedEffectiveScore resp)).sum)
            ((items.filter p).length) ≤ 5) := by
  have hmapeq : (items.filter p).map (recordedEffectiveScore resp) =
      (items.filter p).map (specEffectiveScore resp) :=
    List.map_congr_left (fun item hmem =>
      recordedEffectiveScore_eq_spec items resp hc item (List.mem_of_mem_filter hmem))
  have hbounds : ∀ x ∈ (items.filter p).map (specEffectiveScore resp), 1 ≤ x ∧ x ≤ 5 := by
    intro x hx
    obtain ⟨item, hmem, rfl⟩ := List.mem_map.mp hx
    exact specEffectiveScore_bounds items resp hc item (List.mem_of_mem_filter hmem)
  have hsum := sum_bounds_of_mem _ hbounds
  rw [List.length_map] at hsum
  rw [hmapeq]
  unfold categoryMean calculateAverage
  by_cases hn : (items.filter p).length = 0
  · rw [if_pos hn]
    refine ⟨?_, fun h => absurd hn h⟩
    have hnil : items.filter p = [] := List.length_eq_zero.mp hn
    rw [hnil]
    simp
  · rw [if_neg hn]
    have hpos : (0 : ℚ) < ((items.filter p).length : ℚ) := by
      exact_mod_cast Nat.pos_of_ne_zero hn
    refine ⟨rfl, fun _ => ⟨?_, ?_⟩⟩
    · rw [le_div_iff₀ hpos]
      linarith [hsum.1]
    · rw [div_le_iff₀ hpos]
      linarith [hsum.2]

end MeanLemmas

/-- C1: for a complete response set, every domain and facet entry of the
summary is the arithmetic mean of the effective scores of its items, and
for categories with at least one item the value lies in [1,5]. -/
theorem summary_means_and_range (items : List Item) (resp : List (Nat × Nat))
    (hc : CompleteResponses items resp) :
    (∀ e ∈ (computeScoreSummary items resp).domains,
      e.value = categoryMean (items.filter (fun item => item.domainId == e.id)) resp ∧
      ((items.filter (fun item => item.domainId == e.id)).length ≠ 0 →
        1 ≤ e.value ∧ e.value ≤ 5)) ∧
    (∀ e ∈ (computeScoreSummary items resp).facets,
      e.value = categoryMean (items.filter (fun item => item.facetId == e.id)) resp ∧
      ((items.filter (fun item => item.facetId == e.id)).length ≠ 0 →
        1 ≤ e.value ∧ e.value ≤ 5)) := by
  constructor
  · intro e he
    rw [computeScoreSummary_domains_eq] at he
    obtain ⟨defn, _, rfl⟩ := List.mem_map.mp he
    exact calculateAverage_filter_spec items resp hc (fun item => item.domainId == defn.id)
  · intro e he
    rw [computeScoreSummary_facets_eq] at he
    obtain ⟨defn, _, rfl⟩ := List.mem_map.mp he
    exact calculateAverage_filter_spec items resp hc (fun item => item.facetId == defn.id)

/-- Witness for C1 on the spec's two-item scenario (extraversion /
sociability, one straight item answered 4 and one reverse item
answered 2). -/
theorem summary_means_and_range_witness :
    CompleteResponses
        [⟨1, "A", "extraversion", "sociability", false⟩,
         ⟨2, "B", "extraversion", "sociability", true⟩]
        [(1, 4), (2, 2)] ∧
    (∀ e ∈ (computeScoreSummary
        [⟨1, "A", "extraversion", "sociability", false⟩,
         ⟨2, "B", "extraversion", "sociability", true⟩]
        [(1, 4), (2, 2)]).domains,
      e.value = categoryMean
          (([⟨1, "A", "extraversion", "sociability", false⟩,
             ⟨2, "B", "extraversion", "sociability", true⟩] :
            List Item).filter (fun item => item.domainId == e.id))
          [(1, 4), (2, 2)] ∧
      ((([⟨1, "A", "extraversion", "sociability", false⟩,
          ⟨2, "B", "extraversion", "sociability", true⟩] :
            List Item).filter (fun item => item.domainId == e.id)).length ≠ 0 →
        1 ≤ e.value ∧ e.value ≤ 5)) := by
  have hcomp : CompleteResponses
      [⟨1, "A", "extraversion", "sociability", false⟩,
       ⟨2, "B", "extraversion", "sociability", true⟩]
      [(1, 4), (2, 2)] := by
    intro item hmem
    rcases List.mem_cons.mp hmem with rfl | hmem
    · exact ⟨4, rfl, by omega, by omega⟩
    · rcases List.mem_cons.mp hmem with rfl | hmem
      · exact ⟨2, rfl, by omega, by omega⟩
      · exact (List.not_mem_nil _ hmem).elim
  exact ⟨hcomp, (summary_means_and_range _ _ hcomp).1⟩

/-- C3: a domain or facet with zero catalog items gets an average of
exactly 0 — the division branch of `calculateAverage` is only taken for a
nonzero count, so no division by zero happens for any input. -/
theorem zeroCount_average_zero (items : List Item) (resp : List (Nat × Nat)) :
    (∀ sum : ℚ, calculateAverage sum 0 = 0) ∧
    (∀ e ∈ (computeScoreSummary items resp).domains,
      (createItemStats items).domainCounts e.id = 0 → e.value = 0) ∧
    (∀ e ∈ (computeScoreSummary items resp).facets,
      (createItemStats items).facetCounts e.id = 0 → e.value = 0) := by
  refine ⟨fun sum => by simp [calculateAverage], ?_, ?_⟩
  · intro e he hcount
    rw [computeScoreSummary_domains_eq] at he
    obtain ⟨defn, _, rfl⟩ := List.mem_map.mp he
    rw [createItemStats_domainCounts] at hcount
    simp only [calculateAverage]
    rw [if_pos hcount]
  · intro e he hcount
    rw [computeScoreSummary_facets_eq] at he
    obtain ⟨defn, _, rfl⟩ := List.mem_map.mp he
    rw [createItemStats_facetCounts] at hcount
    simp only [calculateAverage]
    rw [if_pos hcount]

/-- Witness for C3 on the empty catalog: the extraversion entry exists
and scores exactly 0. -/
theorem zeroCount_average_zero_witness :
    calculateAverage 37 0 = 0 ∧
    (⟨"extraversion", "外向性", calculateAverage 0 0⟩ : ScoreEntry) ∈
      (computeScoreSummary [] []).domains ∧
    (createItemStats []).domainCounts "extraversion" = 0 ∧
    (⟨"extraversion", "外向性", calculateAverage 0 0⟩ : ScoreEntry).value = 0 :=
  ⟨(zeroCount_average_zero [] []).1 37,
   List.mem_cons.mpr (Or.inl rfl),
   rfl,
   (zeroCount_average_zero [] []).2.1 ⟨"extraversion", "外向性", calculateAverage 0 0⟩
     (List.mem_cons.mpr (Or.inl rfl)) rfl⟩

/-- C10: whatever the responses, the summary has exactly one entry per
domain (5, definition order) and one per facet (15, definition order),
never omitting or reordering a category. -/
theorem summary_fixed_definition_order (items : List Item) (resp : List (Nat × Nat)) :
    (computeScoreSummary items resp).domains.map ScoreEntry.id =
      ["extraversion", "agreeableness", "conscientiousness",
       "negativeEmotionality", "openness"] ∧
    (computeScoreSummary items resp).domains.map ScoreEntry.id =
      domainDefinitions.map CategoryDef.id ∧
    (computeScoreSummary items resp).domains.length = 5 ∧
    ((computeScoreSummary items resp).domains.map ScoreEntry.id).Nodup ∧
    (computeScoreSummary items resp).facets.map ScoreEntry.id =
      ["sociability", "assertiveness", "energyLevel", "compassion",
       "respectfulness", "trust", "organization", "productivity",
       "responsibility", "anxiety", "depression", "emotionalVolatility",
       "intellectualCuriosity", "aestheticSensitivity", "creativeImagination"] ∧
    (computeScoreSummary items resp).facets.map ScoreEntry.id =
      facetDefinitions.map CategoryDef.id ∧
    (computeScoreSummary items resp).facets.length = 15 ∧
    ((computeScoreSummary items resp).facets.map ScoreEntry.id).Nodup := by
  have hdom : (computeScoreSummary items resp).domains.map ScoreEntry.id =
      ["extraversion", "agreeableness", "conscientiousness",
       "negativeEmotionality", "openness"] := rfl
  have hfac : (computeScoreSummary items resp).facets.map ScoreEntry.id =
      ["sociability", "assertiveness", "energyLevel", "compassion",
       "respectfulness", "trust", "organization", "productivity",
       "responsibility", "anxiety", "depression", "emotionalVolatility",
       "intellectualCuriosity", "aestheticSensitivity", "creativeImagination"] := rfl
  refine ⟨hdom, rfl, rfl, ?_, hfac, rfl, rfl, ?_⟩
  · rw [hdom]
    decide
  · rw [hfac]
    decide

/-- C8: the scoring engine never checks completeness — items without a
truthy response are silently skipped in the numerators while the
denominators stay at the full per-category item counts, so the computed
average can only be dragged down relative to the mean of the answered
items. -/
theorem scoring_skips_unanswered_silently (items : List Item) (resp : List (Nat × Nat)) :
    ((computeScoreSummary items resp).domains =
      domainDefinitions.map (fun definition =>
        ⟨definition.id, definition.label,
          calculateAverage
            (answeredEffectiveSum (fun item => item.domainId == definition.id) items resp)
            ((items.filter (fun item => item.domainId == definition.id)).length)⟩)) ∧
    ((computeScoreSummary items resp).facets =
      facetDefinitions.map (fun definition =>
        ⟨definition.id, definition.label,
          calculateAverage
            (answeredEffectiveSum (fun item => item.facetId == definition.id) items resp)
            ((items.filter (fun item => item.facetId == definition.id)).length)⟩)) ∧
    (∀ p : Item → Bool,
      calculateAverage (answeredEffectiveSum p items resp)
          ((items.filter p).length) ≤
        calculateAverage (answeredEffectiveSum p items resp)
          ((items.filter (fun item => p item && hasTruthyRating resp item.number)).length)) := by
  refine ⟨?_, ?_, ?_⟩
  · rw [computeScoreSummary_domains_eq]
    exact List.map_congr_left fun defn _ => by rw [recordedSum_eq_answeredSum]
  · rw [computeScoreSummary_facets_eq]
    exact List.map_congr_left fun defn _ => by rw [recordedSum_eq_answeredSum]
  · intro p
    have hnn : 0 ≤ answeredEffectiveSum p items resp :=
      answeredEffectiveSum_nonneg p items resp
    have hle : (items.filter (fun item => p item && hasTruthyRating resp item.number)).length ≤
        (items.filter p).length :=
      filter_and_length_le p _ items
    by_cases hA : (items.filter (fun item => p item && hasTruthyRating resp item.number)).length = 0
    · have hempty : items.filter (fun item => p item && hasTruthyRating resp item.number) = [] :=
        List.length_eq_zero.mp hA
      have hnum0 : answeredEffectiveSum p items resp = 0 := by
        unfold answeredEffectiveSum
        rw [hempty]
        simp
      rw [hnum0]
      simp [calculateAverage]
    · have hF : (items.filter p).length ≠ 0 := by omega
      rw [calculateAverage, calculateAverage, if_neg hF, if_neg hA]
      gcongr

/-- C2: for every rating r in [1,5], `reverseScore` returns 6 - r, the
result again lies in [1,5], and the transform is an involution. -/
theorem reverseScore_reverse_transform (r : Nat) (h1 : 1 ≤ r) (h5 : r ≤ 5) :
    (reverseScore r : ℤ) = 6 - (r : ℤ) ∧
    1 ≤ reverseScore r ∧ reverseScore r ≤ 5 ∧
    reverseScore (reverseScore r) = r := by
  unfold reverseScore REVERSE_BASE
  omega

/-- Witness for C2 at r = 2. -/
theorem reverseScore_reverse_transform_witness :
    1 ≤ 2 ∧ 2 ≤ 5 ∧
    ((reverseScore 2 : ℤ) = 6 - (2 : ℤ) ∧
      1 ≤ reverseScore 2 ∧ reverseScore 2 ≤ 5 ∧
      reverseScore (reverseScore 2) = 2) :=
  ⟨by decide, by decide, reverseScore_reverse_transform 2 (by decide) (by decide)⟩

/-- C9: from the result stage, restart goes back to intro with index 0
and an empty response set, whatever had been recorded. -/
theorem handleRestart_clears_state (s : AppState) (_hstage : s.stage = Stage.result) :
    (handleRestart s).stage = Stage.intro ∧
    (handleRestart s).currentIndex = 0 ∧
    (handleRestart s).responses = [] :=
  ⟨rfl, rfl, rfl⟩

/-- Witness for C9 at a concrete result-stage state. -/
theorem handleRestart_clears_state_witness :
    (⟨Stage.result, 3, [(1, 5), (2, 4)]⟩ : AppState).stage = Stage.result ∧
    ((handleRestart ⟨Stage.result, 3, [(1, 5), (2, 4)]⟩).stage = Stage.intro ∧
      (handleRestart ⟨Stage.result, 3, [(1, 5), (2, 4)]⟩).currentIndex = 0 ∧
      (handleRestart ⟨Stage.result, 3, [(1, 5), (2, 4)]⟩).responses = []) :=
  ⟨rfl, handleRestart_clears_state ⟨Stage.result, 3, [(1, 5), (2, 4)]⟩ rfl⟩

/-- C4: normalization fails exactly when some raw item's domain or facet
label resolves to nothing in the fixed label maps (exact string match);
on failure no normalized catalog is produced. -/
theorem normalizeItems_error_iff (rawList : List RawItem) :
    (∃ e, normalizeItems rawList = Except.error e) ↔
      ∃ rawItem ∈ rawList,
        domainIdByLabel rawItem.domain = none ∨ facetIdByLabel rawItem.facet = none := by
  induction rawList with
  | nil =>
    simp [normalizeItems]
  | cons rawItem rest ih =>
    unfold normalizeItems
    cases hdom : domainIdByLabel rawItem.domain with
    | none =>
      simp only [List.mem_cons]
      constructor
      · intro _
        exact ⟨rawItem, Or.inl rfl, Or.inl hdom⟩
      · intro _
        exact ⟨_, rfl⟩
    | some domainId =>
      cases hfac : facetIdByLabel rawItem.facet with
      | none =>
        simp only [List.mem_cons]
        constructor
        · intro _
          exact ⟨rawItem, Or.inl rfl, Or.inr hfac⟩
        · intro _
          exact ⟨_, rfl⟩
      | some facetId =>
        cases hrest : normalizeItems rest with
        | error e =>
          simp only [List.mem_cons]
          constructor
          · intro _
            obtain ⟨bad, hmem, hbad⟩ := ih.mp ⟨e, hrest⟩
            exact ⟨bad, Or.inr hmem, hbad⟩
          · intro _
            exact ⟨e, rfl⟩
        | ok normalized =>
          simp only [List.mem_cons]
          constructor
          · rintro ⟨e, he⟩
            exact absurd he (by simp)
          · rintro ⟨bad, hmem, hbad⟩
            rcases hmem with hmem | hmem
            · subst hmem
              rcases hbad with hbad | hbad
              · rw [hdom] at hbad
                exact absurd hbad (by simp)
              · rw [hfac] at hbad
                exact absurd hbad (by simp)
            · obtain ⟨e, he⟩ := ih.mpr ⟨bad, hmem, hbad⟩
              rw [hrest] at he
              exact absurd he (by simp)

section StateMachineLemmas

theorem handleNext_eq_of_none (items : List Item) (t : AppState)
    (h : items[t.currentIndex]? = none) :
    handleNext items t = t := by
  unfold handleNext
  rw [h]

theorem handleNext_eq_of_getElem (items : List Item) (t : AppState) (cur : Item)
    (h : items[t.currentIndex]? = some cur) :
    handleNext items t =
      if hasTruthyRating t.responses cur.number then
        (if items.length ≤ t.currentIndex + 1 then { t with stage := Stage.result }
         else { t with currentIndex := t.currentIndex + 1 })
      else t := by
  unfold handleNext
  rw [h]

theorem handleSelect_eq_of_none (items : List Item) (rating : Nat) (t : AppState)
    (h : items[t.currentIndex]? = none) :
    handleSelect items rating t = t := by
  unfold handleSelect
  rw [h]

theorem handleSelect_eq_of_getElem (items : List Item) (rating : Nat) (t : AppState)
    (cur : Item) (h : items[t.currentIndex]? = some cur) :
    handleSelect items rating t =
      { t with responses := setResponse t.responses cur.number rating } := by
  unfold handleSelect
  rw [h]

theorem applyNav_responses (items : List Item) (a : Action)
    (ha : a = Action.next ∨ a = Action.previous) (t : AppState) :
    (applyAction items a t).responses = t.responses := by
  rcases ha with rfl | rfl
  · show (handleNext items t).responses = t.responses
    cases hcur : items[t.currentIndex]? with
    | none => rw [handleNext_eq_of_none items t hcur]
    | some cur =>
      rw [handleNext_eq_of_getElem items t cur hcur]
      split_ifs <;> rfl
  · show (handlePrevious t).responses = t.responses
    unfold handlePrevious
    split_ifs <;> rfl

theorem applyNavSeq_responses (items : List Item) (seq : List Action)
    (hnav : ∀ a ∈ seq, a = Action.next ∨ a = Action.previous) (t : AppState) :
    (applyActions items seq t).responses = t.responses := by
  induction seq generalizing t with
  | nil => rfl
  | cons a rest ih =>
    calc (applyActions items (a :: rest) t).responses
        = (applyAction items a t).responses :=
          ih (fun b hb => hnav b (List.mem_cons_of_mem a hb)) (applyAction items a t)
      _ = t.responses := applyNav_responses items a (hnav a (List.mem_cons_self a rest)) t

end StateMachineLemmas

/-- C5: in a question state whose current item exists, `next` is a
silent no-op without a truthy recorded rating, advances to the next
question with one, and switches to `result` exactly when the next index
reaches the item count. -/
theorem handleNext_guard_spec (items : List Item) (s : AppState) (item : Item)
    (_hstage : s.stage = Stage.question)
    (hitem : items[s.currentIndex]? = some item) :
    (hasTruthyRating s.responses item.number = false → handleNext items s = s) ∧
    (hasTruthyRating s.responses item.number = true →
      (s.currentIndex + 1 = items.length →
        handleNext items s = { s with stage := Stage.result }) ∧
      (s.currentIndex + 1 < items.length →
        handleNext items s = { s with currentIndex := s.currentIndex + 1 })) := by
  rw [handleNext_eq_of_getElem items s item hitem]
  constructor
  · intro h
    rw [h]
    simp
  · intro h
    rw [h]
    constructor
    · intro hlen
      rw [if_pos rfl, if_pos (by omega)]
    · intro hlt
      rw [if_pos rfl, if_neg (by omega)]

/-- Witness for C5: with the first of two items answered, `next` advances
from question 0 to question 1. -/
theorem handleNext_guard_spec_witness :
    (⟨Stage.question, 0, [(1, 4)]⟩ : AppState).stage = Stage.question ∧
    ([⟨1, "q1", "extraversion", "sociability", false⟩,
      ⟨2, "q2", "extraversion", "assertiveness", true⟩] :
        List Item)[(⟨Stage.question, 0, [(1, 4)]⟩ : AppState).currentIndex]? =
      some ⟨1, "q1", "extraversion", "sociability", false⟩ ∧
    hasTruthyRating [(1, 4)] 1 = true ∧
    0 + 1 < 2 ∧
    handleNext
        [⟨1, "q1", "extraversion", "sociability", false⟩,
         ⟨2, "q2", "extraversion", "assertiveness", true⟩]
        ⟨Stage.question, 0, [(1, 4)]⟩ =
      ⟨Stage.question, 1, [(1, 4)]⟩ := by
  refine ⟨rfl, rfl, rfl, by omega, ?_⟩
  exact ((handleNext_guard_spec
      [⟨1, "q1", "extraversion", "sociability", false⟩,
       ⟨2, "q2", "extraversion", "assertiveness", true⟩]
      ⟨Stage.question, 0, [(1, 4)]⟩
      ⟨1, "q1", "extraversion", "sociability", false⟩ rfl rfl).2 rfl).2 (by decide)

/-- C7: selecting a rating for the current item then navigating with any
sequence of next/previous leaves that rating in place and every other
item number's entry untouched; next and previous never modify the
response map at all. -/
theorem select_navigation_roundtrip (items : List Item) (s : AppState) (item : Item)
    (rating : Nat) (navSeq : List Action)
    (hitem : items[s.currentIndex]? = some item)
    (hnav : ∀ a ∈ navSeq, a = Action.next ∨ a = Action.previous) :
    getResponse (applyActions items navSeq (handleSelect items rating s)).responses
        item.number = some rating ∧
    (∀ n, n ≠ item.number →
      getResponse (applyActions items navSeq (handleSelect items rating s)).responses n =
        getResponse s.responses n) ∧
    (∀ t : AppState, (handleNext items t).responses = t.responses ∧
      (handlePrevious t).responses = t.responses) := by
  have hresp : (applyActions items navSeq (handleSelect items rating s)).responses =
      setResponse s.responses item.number rating := by
    rw [applyNavSeq_responses items navSeq hnav,
      handleSelect_eq_of_getElem items rating s item hitem]
  refine ⟨?_, ?_, ?_⟩
  · rw [hresp, getResponse_setResponse]
    simp
  · intro n hn
    rw [hresp, getResponse_setResponse]
    exact if_neg (fun h => hn h.symm)
  · intro t
    exact ⟨applyNav_responses items Action.next (Or.inl rfl) t,
      applyNav_responses items Action.previous (Or.inr rfl) t⟩

/-- Witness for C7: select 4 for item 1, then next and previous; item 1
still reads 4 and item 2's earlier rating 5 is untouched. -/
theorem select_navigation_roundtrip_witness :
    ([⟨1, "q1", "extraversion", "sociability", false⟩,
      ⟨2, "q2", "extraversion", "assertiveness", true⟩] :
        List Item)[(⟨Stage.question, 0, [(2, 5)]⟩ : AppState).currentIndex]? =
      some ⟨1, "q1", "extraversion", "sociability", false⟩ ∧
    (∀ a ∈ [Action.next, Action.previous], a = Action.next ∨ a = Action.previous) ∧
    getResponse (applyActions
        [⟨1, "q1", "extraversion", "sociability", false⟩,
         ⟨2, "q2", "extraversion", "assertiveness", true⟩]
        [Action.next, Action.previous]
        (handleSelect
          [⟨1, "q1", "extraversion", "sociability", false⟩,
           ⟨2, "q2", "extraversion", "assertiveness", true⟩]
          4 ⟨Stage.question, 0, [(2, 5)]⟩)).responses 1 = some 4 ∧
    (∀ n, n ≠ 1 →
      getResponse (applyActions
          [⟨1, "q1", "extraversion", "sociability", false⟩,
           ⟨2, "q2", "extraversion", "assertiveness", true⟩]
          [Action.next, Action.previous]
          (handleSelect
            [⟨1, "q1", "extraversion", "sociability", false⟩,
             ⟨2, "q2", "extraversion", "assertiveness", true⟩]
            4 ⟨Stage.question, 0, [(2, 5)]⟩)).responses n =
        getResponse [(2, 5)] n) := by
  have hnav : ∀ a ∈ [Action.next, Action.previous],
      a = Action.next ∨ a = Action.previous := by
    intro a ha
    rcases List.mem_cons.mp ha with rfl | ha
    · exact Or.inl rfl
    · rcases List.mem_cons.mp ha with rfl | ha
      · exact Or.inr rfl
      · exact (List.not_mem_nil _ ha).elim
  have h := select_navigation_roundtrip
    [⟨1, "q1", "extraversion", "sociability", false⟩,
     ⟨2, "q2", "extraversion", "assertiveness", true⟩]
    ⟨Stage.question, 0, [(2, 5)]⟩
    ⟨1, "q1", "extraversion", "sociability", false⟩
    4 [Action.next, Action.previous] rfl hnav
  exact ⟨rfl, hnav, h.1, h.2.1⟩

section InvariantLemmas

theorem stateInv_initial (items : List Item) : StateInv items initialState := by
  constructor
  · intro j hj item _
    exact absurd hj (Nat.not_lt_zero j)
  · intro h
    exact absurd h (by decide)

theorem stateInv_preserved (items : List Item) (a : Action) (s : AppState)
    (hwt : actionWellTyped a) (hinv : StateInv items s) :
    StateInv items (applyAction items a s) := by
  obtain ⟨h1, h2⟩ := hinv
  cases a with
  | start =>
    exact ⟨fun j hj item hit => h1 j hj item hit, fun hres => Stage.noConfusion hres⟩
  | restart =>
    exact ⟨fun j hj item _ => absurd hj (Nat.not_lt_zero j),
      fun hres => Stage.noConfusion hres⟩
  | previous =>
    show StateInv items (handlePrevious s)
    unfold handlePrevious
    split_ifs with h0
    · exact ⟨h1, h2⟩
    · exact ⟨fun j hj item hit =>
        h1 j (by have hj' : j < s.currentIndex - 1 := hj; omega) item hit, h2⟩
  | select rating =>
    obtain ⟨hr1, hr5⟩ := hwt
    show StateInv items (handleSelect items rating s)
    cases hcur : items[s.currentIndex]? with
    | none =>
      rw [handleSelect_eq_of_none items rating s hcur]
      exact ⟨h1, h2⟩
    | some cur =>
      rw [handleSelect_eq_of_getElem items rating s cur hcur]
      refine ⟨fun j hj item hit => ?_, fun hres item hmem => ?_⟩
      · exact hasTruthyRating_setResponse s.responses cur.number rating item.number
          hr1 (h1 j hj item hit)
      · exact hasTruthyRating_setResponse s.responses cur.number rating item.number
          hr1 (h2 hres item hmem)
  | next =>
    show StateInv items (handleNext items s)
    cases hcur : items[s.currentIndex]? with
    | none =>
      rw [handleNext_eq_of_none items s hcur]
      exact ⟨h1, h2⟩
    | some cur =>
      rw [handleNext_eq_of_getElem items s cur hcur]
      by_cases htr : hasTruthyRating s.responses cur.number = true
      · rw [if_pos htr]
        by_cases hlen : items.length ≤ s.currentIndex + 1
        · rw [if_pos hlen]
          refine ⟨fun j hj item hit => h1 j hj item hit, fun _ item hmem => ?_⟩
          obtain ⟨j, hjlen, hjget⟩ := List.mem_iff_getElem.mp hmem
          have hget : items[j]? = some item := by
            rw [List.getElem?_eq_getElem hjlen, hjget]
          by_cases hji : j < s.currentIndex
          · exact h1 j hji item hget
          · have hj : j = s.currentIndex := by omega
            subst hj
            rw [hcur] at hget
            cases hget
            exact htr
        · rw [if_neg hlen]
          refine ⟨fun j hj item hit => ?_, h2⟩
          have hj' : j < s.currentIndex + 1 := hj
          by_cases hji : j < s.currentIndex
          · exact h1 j hji item hit
          · have hj : j = s.currentIndex := by omega
            subst hj
            rw [hcur] at hit
            cases hit
            exact htr
      · rw [if_neg htr]
        exact ⟨h1, h2⟩

theorem reachable_stateInv (items : List Item) (s : AppState)
    (h : Reachable items s) : StateInv items s := by
  induction h with
  | init => exact stateInv_initial items
  | step a t _ hwt ih => exact stateInv_preserved items a t hwt ih

end InvariantLemmas

/-- C6: in every state reachable from the initial one, the result stage
implies every catalog item's number has a recorded nonzero rating — so
scoring only ever runs on complete input. -/
theorem result_stage_has_complete_responses (items : List Item) (s : AppState)
    (hreach : Reachable items s) (hstage : s.stage = Stage.result) :
    ∀ item ∈ items, ∃ r, getResponse s.responses item.number = some r ∧ r ≠ 0 := by
  intro item hmem
  exact (hasTruthyRating_iff s.responses item.number).mp
    ((reachable_stateInv items s hreach).2 hstage item hmem)

/-- Witness for C6: start, select 3, next on a one-item catalog reaches
the result stage with the single item answered. -/
theorem result_stage_has_complete_responses_witness :
    Reachable [⟨1, "q", "extraversion", "sociability", false⟩]
      ⟨Stage.result, 0, [(1, 3)]⟩ ∧
    (⟨Stage.result, 0, [(1, 3)]⟩ : AppState).stage = Stage.result ∧
    (∀ item ∈ ([⟨1, "q", "extraversion", "sociability", false⟩] : List Item),
      ∃ r, getResponse [(1, 3)] item.number = some r ∧ r ≠ 0) := by
  have h0 : Reachable [⟨1, "q", "extraversion", "sociability", false⟩] initialState :=
    Reachable.init
  have h1 := Reachable.step Action.start initialState h0 trivial
  have h2 := Reachable.step (Action.select 3) _ h1 (by exact ⟨by omega, by omega⟩)
  have h3 := Reachable.step Action.next _ h2 trivial
  have hreach : Reachable [⟨1, "q", "extraversion", "sociability", false⟩]
      ⟨Stage.result, 0, [(1, 3)]⟩ := h3
  exact ⟨hreach, rfl,
    result_stage_has_complete_responses _ _ hreach rfl⟩

end BFI
